import Mathlib

/-!
Verification of the Symbiont trust-and-orchestration protocol core.

The Rust sources are shallowly embedded: `f64` values become `ℚ`, the
clamped newtypes (`Score`, `SignedScore`, `Weight`) become `ℚ` together
with their clamping smart constructors, hash maps become association
lists, and the transcendental float functions (`exp`, `ln`, `powf`) are
threaded through as an explicit `FloatFns` record whose analytic
properties are assumed only where a theorem needs them.
-/

namespace Symbiont

/-! ## Protocol constants (constants.rs) -/

def GAMMA : ℚ := 1/10

def MU : ℚ := 1/2

def ALPHA : ℚ := 1/100

def BETA : ℚ := 2

def LAMBDA : ℚ := 9/10

def THETA : ℚ := 1/2

def DELTA : ℚ := 1/5

def EPSILON : ℚ := 1/1000

def W_MIN : ℚ := 1/100

def W_MAX : ℚ := 1

def W_INIT : ℚ := 3/10

def SWIFT_TRUST_BASE : ℚ := 2/5

def PROBATION_COUNT : ℕ := 50

def PROBATION_THRESHOLD : ℚ := 3/5

def PROPAGATE_THRESHOLD : ℚ := 3/5

def DECAY_PER_HOP : ℚ := 4/5

def MIN_SIGNAL : ℚ := 1/10

def MAX_HOPS : ℕ := 5

def DIVERSITY_THRESHOLD : ℚ := 3/10

def TRUST_WEIGHT_QUALITY : ℚ := 2/5

def TRUST_WEIGHT_RECIPROCITY : ℚ := 1/5

def TRUST_WEIGHT_SOCIAL : ℚ := 1/5

def TRUST_WEIGHT_DIVERSITY : ℚ := 1/5

/-! ## Identifier and clamped scalar types (types.rs)

Opaque identifiers (32-byte node ids, capability ids, step ids, hashes,
timestamps) are modelled as natural numbers: the code only compares them
for equality or order.  The clamped newtypes are modelled by their
rational value together with the clamping constructor `new`.
-/

abbrev NodeId := ℕ

abbrev CapabilityId := ℕ

abbrev Hash := ℕ

abbrev Timestamp := ℕ

abbrev StepId := ℕ

/-- Rust `f64::clamp(lo, hi)`: below `lo` becomes `lo`, above `hi` becomes `hi`. -/
def clampQ (x lo hi : ℚ) : ℚ := min (max x lo) hi

/-- Score::new clamps to the unit interval. -/
def Score.new (v : ℚ) : ℚ := clampQ v 0 1

/-- SignedScore::new clamps to the interval from -1 to 1. -/
def SignedScore.new (v : ℚ) : ℚ := clampQ v (-1) 1

/-- Weight::new clamps to the interval from W_MIN to W_MAX. -/
def Weight.new (v : ℚ) : ℚ := clampQ v W_MIN W_MAX

/-! ## Float function oracle

The source uses `f64::exp`, `f64::ln` and `f64::powf`.  These are not
rational functions, so the embedding abstracts them into a record of
rational approximants; theorems assume exactly the analytic facts the
corresponding proofs need (positivity, strict monotonicity, value at 0,
vanishing of the square root only at 0).
-/

structure FloatFns where
  exp : ℚ → ℚ
  log : ℚ → ℚ
  powf : ℚ → ℚ → ℚ

/-! ## Math kernel (math.rs) -/

/-- Safe reciprocity sigmoid with configurable beta, with overflow gating at 700. -/
def safe_reciprocity_sigmoid (F : FloatFns) (r beta : ℚ) : ℚ :=
  let x := -beta * r
  if 700 < x then -1
  else if x < -700 then 1
  else SignedScore.new (2 / (1 + F.exp x) - 1)

/-- Reciprocity sigmoid at the protocol beta. -/
def reciprocity_sigmoid (F : FloatFns) (r : ℚ) : ℚ :=
  safe_reciprocity_sigmoid F r BETA

/-- Standard sigmoid with overflow gating at 700. -/
def sigmoid (F : FloatFns) (x : ℚ) : ℚ :=
  if 700 < x then 1
  else if x < -700 then 0
  else Score.new (1 / (1 + F.exp (-x)))

/-- Quality multiplier psi. -/
def quality_multiplier (q : ℚ) : ℚ := 1/2 + q

/-- Tone multiplier phi. -/
def tone_multiplier (tau : ℚ) : ℚ := 7/10 + 3/10 * tau

/-- Safe logarithm with epsilon protection. -/
def safe_log (F : FloatFns) (x : ℚ) : ℚ := F.log (max x EPSILON)

/-- Log of the exchange ratio. -/
def exchange_ratio_log (F : FloatFns) (exchange_in exchange_out : ℚ) : ℚ :=
  safe_log F (exchange_in / (exchange_out + EPSILON))

/-- Bayesian belief update. -/
def bayesian_update (belief weight : ℚ) : ℚ :=
  Score.new (belief + weight * (1 - belief))

/-- Apply diversity cap to trust. -/
def apply_diversity_cap (trust diversity : ℚ) : ℚ :=
  Score.new (min trust (diversity + 3/10))

/-! ## Threat beliefs (node.rs) -/

inductive ThreatType where
  | cheating
  | sybil
  | collusion
  | qualityFraud
  | strategic
deriving DecidableEq, Repr

structure ThreatBelief where
  level : ℚ
  threat_type : ThreatType
  evidence : List Hash
  updated : Timestamp
deriving DecidableEq, Repr

def ThreatBelief.new (threat_type : ThreatType) (initial_level : ℚ) (now : Timestamp) :
    ThreatBelief :=
  { level := initial_level, threat_type := threat_type, evidence := [], updated := now }

/-- ThreatBelief::update applies the Bayesian formula to the level and appends evidence. -/
def ThreatBelief.update (tb : ThreatBelief) (weight : ℚ) (evidence : Option Hash)
    (now : Timestamp) : ThreatBelief :=
  { tb with
    level := Score.new (tb.level + weight * (1 - tb.level)),
    updated := now,
    evidence :=
      match evidence with
      | some h => tb.evidence ++ [h]
      | none => tb.evidence }

/-! ## Interactions and history (interaction.rs) -/

structure Interaction where
  initiator : NodeId
  responder : NodeId
  volume : ℚ
  capability : Option CapabilityId
  quality : ℚ
  tone : ℚ
  exchange_in : ℚ
  exchange_out : ℚ
  timestamp : Timestamp
deriving DecidableEq, Repr

/-- Interaction::new followed by the with_volume, with_outcome and with_exchange
builder calls used by the node handlers; the capability field stays None there. -/
def Interaction.build (initiator responder : NodeId) (volume quality tone : ℚ)
    (exchange_in exchange_out : ℚ) (now : Timestamp) : Interaction :=
  { initiator := initiator, responder := responder, volume := volume, capability := none,
    quality := quality, tone := tone, exchange_in := exchange_in,
    exchange_out := exchange_out, timestamp := now }

structure InteractionHistory where
  interactions : List Interaction
  max_size : ℕ
deriving DecidableEq, Repr

def InteractionHistory.empty : InteractionHistory :=
  { interactions := [], max_size := 100 }

/-- InteractionHistory::add prepends and drops the oldest entry past max_size. -/
def InteractionHistory.add (h : InteractionHistory) (i : Interaction) : InteractionHistory :=
  let l := i :: h.interactions
  { h with interactions := if h.max_size < l.length then l.dropLast else l }

def InteractionHistory.recent (h : InteractionHistory) (count : ℕ) : List Interaction :=
  h.interactions.take count

/-- Mean quality over the most recent `count` entries (HALF if none). -/
def InteractionHistory.mean_quality (h : InteractionHistory) (count : ℕ) : ℚ :=
  let r := h.recent count
  if r.isEmpty then 1/2
  else Score.new ((r.map (·.quality)).sum / r.length)

/-- Number of distinct responder ids among the most recent `count` entries. -/
def InteractionHistory.unique_partners (h : InteractionHistory) (count : ℕ) : ℕ :=
  ((h.recent count).map (·.responder)).dedup.length

/-! ## Capability state (capability.rs) -/

structure CapabilityState where
  quality : ℚ
  volume : ℕ
  last_used : Timestamp
  available : Bool
  load : ℚ
deriving DecidableEq, Repr

def CapabilityState.new (now : Timestamp) : CapabilityState :=
  { quality := 1/2, volume := 0, last_used := now, available := true, load := 0 }

def CapabilityState.can_accept_work (cs : CapabilityState) : Bool :=
  cs.available && decide (cs.load < 19/20)

def CapabilityState.update_quality (cs : CapabilityState) (observed lambda : ℚ) :
    CapabilityState :=
  { cs with quality := Score.new (lambda * cs.quality + (1 - lambda) * observed) }

def CapabilityState.record_usage (cs : CapabilityState) (quality lambda : ℚ)
    (now : Timestamp) : CapabilityState :=
  { cs.update_quality quality lambda with volume := cs.volume + 1, last_used := now }

/-! ## Connections (connection.rs) -/

structure Connection where
  partner_id : NodeId
  w : ℚ
  r : ℚ
  q : ℚ
  capability_qualities : List (CapabilityId × ℚ)
  tau : ℚ
  pi : ℚ
  last_active : Timestamp
  count : ℕ
deriving DecidableEq, Repr

def Connection.new (partner_id : NodeId) (now : Timestamp) : Connection :=
  { partner_id := partner_id, w := W_INIT, r := 0, q := 1/2, capability_qualities := [],
    tau := 0, pi := 0, last_active := now, count := 0 }

def Connection.update_reciprocity (F : FloatFns) (c : Connection)
    (exchange_in exchange_out quality : ℚ) : Connection :=
  let log_rho := exchange_ratio_log F exchange_in exchange_out
  let quality_adj := THETA * (quality - 1/2)
  { c with r := LAMBDA * c.r + (1 - LAMBDA) * (log_rho + quality_adj) }

def Connection.update_quality (c : Connection) (observed_quality : ℚ) : Connection :=
  { c with q := Score.new (LAMBDA * c.q + (1 - LAMBDA) * observed_quality) }

def Connection.update_capability_quality (c : Connection) (capability : CapabilityId)
    (observed_quality : ℚ) : Connection :=
  let current := ((c.capability_qualities.find? (·.1 == capability)).map (·.2)).getD (1/2)
  let new_q := Score.new (LAMBDA * current + (1 - LAMBDA) * observed_quality)
  { c with capability_qualities :=
      if c.capability_qualities.any (·.1 == capability) then
        c.capability_qualities.map (fun p => if p.1 == capability then (p.1, new_q) else p)
      else c.capability_qualities ++ [(capability, new_q)] }

def Connection.update_tone (c : Connection) (observed_tone : ℚ) : Connection :=
  { c with tau := SignedScore.new (LAMBDA * c.tau + (1 - LAMBDA) * observed_tone) }

/-- Connection::compute_reinforcement, the Physarum reinforcement term. -/
def Connection.compute_reinforcement (F : FloatFns) (c : Connection) (volume : ℚ) : ℚ :=
  let flow := F.powf |volume| MU
  let sigma_r := reciprocity_sigmoid F c.r
  let psi_q := quality_multiplier c.q
  let phi_tau := tone_multiplier c.tau
  GAMMA * flow * sigma_r * psi_q * phi_tau

def Connection.update_weight (F : FloatFns) (c : Connection)
    (volume threat_level dt : ℚ) : Connection :=
  let phi := c.compute_reinforcement F volume
  let decay := ALPHA * c.w
  let defense := DELTA * threat_level
  let delta_w := dt * (phi - decay - defense)
  { c with w := Weight.new (c.w + delta_w) }

/-- Connection::process_interaction, the full per-interaction update. -/
def Connection.process_interaction (F : FloatFns) (c : Connection)
    (volume exchange_in exchange_out quality tone threat_level : ℚ)
    (now : Timestamp) : Connection :=
  let c1 := c.update_reciprocity F exchange_in exchange_out quality
  let c2 := c1.update_quality quality
  let c3 := c2.update_tone tone
  let c4 := c3.update_weight F volume threat_level 1
  { c4 with last_active := now, count := c4.count + 1 }

/-! ## Nodes (node.rs) -/

inductive NodeStatus where
  | probationary
  | member
  | established
  | hub
  | expelled
deriving DecidableEq, Repr

def NodeStatus.is_active (s : NodeStatus) : Bool :=
  decide (s ≠ NodeStatus.expelled)

structure Node where
  id : NodeId
  status : NodeStatus
  trust : ℚ
  trust_cap : ℚ
  connections : List Connection
  capabilities : List (CapabilityId × CapabilityState)
  threat_beliefs : List (NodeId × ThreatBelief)
  history : InteractionHistory
  probation_count : ℕ
  load : ℚ
deriving DecidableEq, Repr

def Node.new (id : NodeId) : Node :=
  { id := id, status := NodeStatus.probationary, trust := SWIFT_TRUST_BASE, trust_cap := 1,
    connections := [], capabilities := [], threat_beliefs := [],
    history := InteractionHistory.empty, probation_count := 0, load := 0 }

def Node.get_threat_level (n : Node) (node_id : NodeId) : ℚ :=
  ((n.threat_beliefs.find? (·.1 == node_id)).map (·.2.level)).getD 0

def Node.has_capability (n : Node) (cap_id : CapabilityId) : Bool :=
  ((n.capabilities.find? (·.1 == cap_id)).map (·.2.available)).getD false

def Node.capability_quality (n : Node) (cap_id : CapabilityId) : ℚ :=
  ((n.capabilities.find? (·.1 == cap_id)).map (·.2.quality)).getD 0

def Node.get_connection (n : Node) (partner_id : NodeId) : Option Connection :=
  n.connections.find? (·.partner_id == partner_id)

/-- Effect of `get_or_create_connection` followed by a mutation `f` of the entry. -/
def Node.update_connection (n : Node) (partner_id : NodeId) (now : Timestamp)
    (f : Connection → Connection) : List Connection :=
  if n.connections.any (·.partner_id == partner_id) then
    n.connections.map (fun c => if c.partner_id == partner_id then f c else c)
  else n.connections ++ [f (Connection.new partner_id now)]

def Node.can_accept_work (n : Node) : Bool :=
  n.status.is_active && decide (n.load < 19/20)

def Node.can_accept_capability_work (n : Node) (cap_id : CapabilityId) : Bool :=
  n.can_accept_work &&
    (((n.capabilities.find? (·.1 == cap_id)).map (·.2.can_accept_work)).getD false)

def Node.diversity_score (n : Node) : ℚ :=
  Score.new (n.history.unique_partners 100 / 100)

/-- Node::check_probation_status. -/
def Node.check_probation_status (n : Node) : Node :=
  if n.status ≠ NodeStatus.probationary then n
  else if PROBATION_COUNT ≤ n.probation_count then
    let mean_quality := n.history.mean_quality PROBATION_COUNT
    if PROBATION_THRESHOLD ≤ mean_quality then
      { n with status := NodeStatus.member, trust := Score.new (min (n.trust * (3/2)) (4/5)) }
    else
      { n with trust := Score.new (n.trust * (4/5)), probation_count := 0 }
  else n

/-- Node::handle_outgoing_interaction. -/
def Node.handle_outgoing_interaction (F : FloatFns) (n : Node) (partner_id : NodeId)
    (volume exchange_in exchange_out quality tone : ℚ) (capability : Option CapabilityId)
    (now : Timestamp) : Node :=
  let threat_level := n.get_threat_level partner_id
  let conns :=
    n.update_connection partner_id now
      (fun c => c.process_interaction F volume exchange_in exchange_out quality tone
        threat_level now)
  let n1 := { n with connections := conns }
  let n2 :=
    match capability with
    | some cap_id =>
        { n1 with connections :=
            (n1.update_connection partner_id now
              (fun c => c.update_capability_quality cap_id quality)) }
    | none => n1
  let interaction :=
    Interaction.build n.id partner_id volume quality tone exchange_in exchange_out now
  let n3 := { n2 with history := n2.history.add interaction }
  if n3.status = NodeStatus.probationary then
    Node.check_probation_status { n3 with probation_count := n3.probation_count + 1 }
  else n3

/-- Node::handle_incoming_interaction: exchange direction flipped, own capability
usage recorded, and the history entry names this node as responder. -/
def Node.handle_incoming_interaction (F : FloatFns) (n : Node) (initiator_id : NodeId)
    (volume exchange_in exchange_out quality tone : ℚ) (capability : Option CapabilityId)
    (now : Timestamp) : Node :=
  let threat_level := n.get_threat_level initiator_id
  let conns :=
    n.update_connection initiator_id now
      (fun c => c.process_interaction F volume exchange_out exchange_in quality tone
        threat_level now)
  let n1 := { n with connections := conns }
  let n2 :=
    match capability with
    | some cap_id =>
        { n1 with capabilities :=
            (n1.capabilities.map (fun (p : CapabilityId × CapabilityState) =>
              if p.1 == cap_id then (p.1, p.2.record_usage quality LAMBDA now) else p)) }
    | none => n1
  let interaction :=
    Interaction.build initiator_id n.id volume quality tone exchange_out exchange_in now
  { n2 with history := n2.history.add interaction }

/-- Node::update_threat_belief: get-or-create the belief, then Bayesian update. -/
def Node.update_threat_belief (n : Node) (target : NodeId) (threat_type : ThreatType)
    (weight : ℚ) (evidence : Option Hash) (now : Timestamp) : Node :=
  { n with threat_beliefs :=
      if n.threat_beliefs.any (·.1 == target) then
        n.threat_beliefs.map (fun p =>
          if p.1 == target then (p.1, p.2.update weight evidence now) else p)
      else
        n.threat_beliefs ++
          [(target, (ThreatBelief.new threat_type 0 now).update weight evidence now)] }

/-! ## Trust aggregation (trust.rs) -/

/-- Node::aggregate_capability_quality: volume-weighted mean of capability qualities. -/
def Node.aggregate_capability_quality (n : Node) : ℚ :=
  if n.capabilities.isEmpty then 1/2
  else
    let sum := (n.capabilities.map (fun p => p.2.quality * (p.2.volume : ℚ))).sum
    let weight_sum := (n.capabilities.map (fun p => (p.2.volume : ℚ))).sum
    if weight_sum < 1/1000 then 1/2
    else Score.new (sum / weight_sum)

/-- compute_social_proof: mean connection quality. -/
def compute_social_proof (n : Node) : ℚ :=
  if n.connections.isEmpty then 0
  else Score.new ((n.connections.map (·.q)).sum / n.connections.length)

/-- compute_trust: weighted combination, then diversity cap, then trust cap. -/
def compute_trust (F : FloatFns) (n : Node) : ℚ :=
  let q_agg := n.aggregate_capability_quality
  let r_agg :=
    if n.connections.isEmpty then 0
    else (n.connections.map (·.r)).sum / n.connections.length
  let s_social := compute_social_proof n
  let d_diversity := n.diversity_score
  let total_weight := TRUST_WEIGHT_QUALITY + TRUST_WEIGHT_RECIPROCITY +
    TRUST_WEIGHT_SOCIAL + TRUST_WEIGHT_DIVERSITY
  let trust := (TRUST_WEIGHT_QUALITY * q_agg + TRUST_WEIGHT_RECIPROCITY * sigmoid F r_agg +
    TRUST_WEIGHT_SOCIAL * s_social + TRUST_WEIGHT_DIVERSITY * d_diversity) / total_weight
  let base_trust := Score.new trust
  let capped := apply_diversity_cap base_trust d_diversity
  Score.new (min capped n.trust_cap)

/-! ## Defense signals (defense.rs) -/

inductive SignalType where
  | generalAlert
  | specificThreat
  | broadcast
deriving DecidableEq, Repr

structure DefenseSignal where
  signal_type : SignalType
  sender : NodeId
  origin : NodeId
  threat : NodeId
  threat_type : ThreatType
  confidence : ℚ
  evidence : Hash
  hops : ℕ
  timestamp : Timestamp
  signature : ℕ
deriving DecidableEq, Repr

def DefenseSignal.new (origin threat : NodeId) (threat_type : ThreatType)
    (confidence : ℚ) (evidence : Hash) (now : Timestamp) : DefenseSignal :=
  { signal_type := SignalType.specificThreat, sender := origin, origin := origin,
    threat := threat, threat_type := threat_type, confidence := confidence,
    evidence := evidence, hops := 0, timestamp := now, signature := 0 }

/-- DefenseSignal::forward: the hop-attenuated copy, or None when the signal
must not propagate. -/
def DefenseSignal.forward (s : DefenseSignal) (new_sender : NodeId)
    (connection_weight : ℚ) (now : Timestamp) : Option DefenseSignal :=
  if s.confidence < PROPAGATE_THRESHOLD then none
  else if MAX_HOPS ≤ s.hops then none
  else
    let new_confidence := s.confidence * DECAY_PER_HOP * connection_weight
    if new_confidence < MIN_SIGNAL then none
    else
      some { s with
        sender := new_sender
        confidence := Score.new new_confidence
        hops := s.hops + 1
        timestamp := now
        signature := 0 }

/-- DefenseHandler::queue_propagation: forward to every neighbor except the
sender, the origin and the threat. -/
def queue_propagation (node : Node) (signal : DefenseSignal) (now : Timestamp) :
    List DefenseSignal :=
  node.connections.filterMap (fun conn =>
    if conn.partner_id = signal.sender ∨ conn.partner_id = signal.origin then none
    else if conn.partner_id = signal.threat then none
    else signal.forward node.id conn.w now)

/-! ## Routing (routing.rs) -/

inductive Priority where
  | low
  | normal
  | high
  | critical
deriving DecidableEq, Repr

structure TaskConstraints where
  timeout_ms : Option ℕ
  priority : Priority
  min_trust : Option ℚ
  min_quality : Option ℚ
  preferred_nodes : List NodeId
  excluded_nodes : List NodeId
deriving DecidableEq, Repr

def TaskConstraints.default : TaskConstraints :=
  { timeout_ms := none, priority := Priority.normal, min_trust := none,
    min_quality := none, preferred_nodes := [], excluded_nodes := [] }

/-- TaskConstraints::is_acceptable. -/
def TaskConstraints.is_acceptable (tc : TaskConstraints) (node : Node)
    (capability : CapabilityId) : Bool :=
  if node.id ∈ tc.excluded_nodes then false
  else if tc.min_trust.any (fun mt => decide (node.trust < mt)) then false
  else if tc.min_quality.any (fun mq => decide (node.capability_quality capability < mq)) then
    false
  else true

structure Task where
  id : ℕ
  required_caps : List CapabilityId
  constraints : TaskConstraints
  origin : NodeId
  created : Timestamp
deriving DecidableEq, Repr

structure ScoreComponents where
  trust : ℚ
  capability_quality : ℚ
  availability : ℚ
  connection : ℚ
  defense : ℚ
  preference_bonus : ℚ
deriving DecidableEq, Repr

structure CandidateScore where
  node_id : NodeId
  score : ℚ
  components : ScoreComponents
deriving DecidableEq, Repr

/-- compute_routing_score: the multiplicative routing score with its components. -/
def compute_routing_score (from_node candidate : Node) (capability : CapabilityId)
    (constraints : TaskConstraints) : CandidateScore :=
  let trust := candidate.trust
  let cap_quality := candidate.capability_quality capability
  let availability := 1 - candidate.load
  let connection := ((from_node.get_connection candidate.id).map (·.w)).getD W_INIT
  let threat := from_node.get_threat_level candidate.id
  let defense := 1 - threat
  let preference_bonus := if candidate.id ∈ constraints.preferred_nodes then 6/5 else 1
  { node_id := candidate.id,
    score := trust * cap_quality * availability * connection * defense * preference_bonus,
    components :=
      { trust := trust, capability_quality := cap_quality, availability := availability,
        connection := connection, defense := defense,
        preference_bonus := preference_bonus } }

inductive RoutingResult where
  | success (top : CandidateScore)
  | noCandidates
  | constraintsNotMet
deriving DecidableEq, Repr

/-- The candidate filter used by route_task. -/
def route_filter (from_node : Node) (task : Task) (required_cap : CapabilityId)
    (node : Node) : Bool :=
  node.has_capability required_cap && node.can_accept_capability_work required_cap &&
    task.constraints.is_acceptable node required_cap && decide (node.id ≠ from_node.id)

/-- Stable insertion into a descending-by-score list, mirroring the stable
descending sort_by in route_task. -/
def insert_desc (x : CandidateScore) : List CandidateScore → List CandidateScore
  | [] => [x]
  | y :: ys => if y.score ≤ x.score then x :: y :: ys else y :: insert_desc x ys

def sort_by_score_desc (l : List CandidateScore) : List CandidateScore :=
  l.foldr insert_desc []

/-- route_task: filter, score, sort descending, return the top candidate. -/
def route_task (from_node : Node) (task : Task) (candidates : List Node) : RoutingResult :=
  match task.required_caps with
  | [] => RoutingResult.noCandidates
  | required_cap :: _ =>
    let scored :=
      (candidates.filter (route_filter from_node task required_cap)).map
        (fun node => compute_routing_score from_node node required_cap task.constraints)
    match sort_by_score_desc scored with
    | [] => RoutingResult.noCandidates
    | top :: _ => RoutingResult.success top

/-! ## Workflow engine (workflow.rs) -/

inductive WorkflowType where
  | single
  | sequential
  | parallel
  | dag
deriving DecidableEq, Repr

inductive WorkflowStatus where
  | pending
  | running
  | completed
  | failed
  | cancelled
deriving DecidableEq, Repr

inductive StepStatus where
  | pending
  | ready
  | running
  | completed
  | failed
  | skipped
deriving DecidableEq, Repr

structure StepResult where
  step_id : StepId
  success : Bool
  output : List ℕ
  quality : ℚ
  executor : NodeId
  duration_ms : ℕ
deriving DecidableEq, Repr

structure WorkflowStep where
  id : StepId
  task : Task
  assigned_to : Option NodeId
  depends_on : List StepId
  status : StepStatus
  result : Option StepResult
deriving DecidableEq, Repr

/-- WorkflowStep::new followed by depends_on builder calls. -/
def WorkflowStep.build (id : StepId) (task : Task) (deps : List StepId) : WorkflowStep :=
  { id := id, task := task, assigned_to := none, depends_on := deps,
    status := StepStatus.pending, result := none }

def WorkflowStep.dependencies_satisfied (s : WorkflowStep)
    (completed_steps : List StepId) : Bool :=
  s.depends_on.all (completed_steps.contains ·)

structure WorkflowContext where
  workflow_id : ℕ
  step_index : ℕ
  prior_results : List StepResult
  data : List (ℕ × List ℕ)
  lineage : List NodeId
deriving DecidableEq, Repr

def WorkflowContext.new (workflow_id : ℕ) : WorkflowContext :=
  { workflow_id := workflow_id, step_index := 0, prior_results := [], data := [],
    lineage := [] }

/-- WorkflowContext::add_result. -/
def WorkflowContext.add_result (ctx : WorkflowContext) (result : StepResult) :
    WorkflowContext :=
  { ctx with
    lineage :=
      if result.executor ∈ ctx.lineage then ctx.lineage
      else ctx.lineage ++ [result.executor],
    prior_results := ctx.prior_results ++ [result],
    step_index := ctx.step_index + 1 }

structure Workflow where
  id : ℕ
  workflow_type : WorkflowType
  steps : List WorkflowStep
  context : WorkflowContext
  status : WorkflowStatus
  created : Timestamp
  started : Option Timestamp
  completed : Option Timestamp
deriving DecidableEq, Repr

def Workflow.new (id : ℕ) (workflow_type : WorkflowType) (now : Timestamp) : Workflow :=
  { id := id, workflow_type := workflow_type, steps := [],
    context := WorkflowContext.new id, status := WorkflowStatus.pending, created := now,
    started := none, completed := none }

def Workflow.add_step (wf : Workflow) (step : WorkflowStep) : Workflow :=
  { wf with steps := wf.steps ++ [step] }

def Workflow.ready_steps (wf : Workflow) : List WorkflowStep :=
  let completed := (wf.steps.filter (·.status == StepStatus.completed)).map (·.id)
  wf.steps.filter (fun s =>
    s.status == StepStatus.pending && s.dependencies_satisfied completed)

/-- Action of `iter_mut().find(|s| s.id == step_id)` followed by a mutation. -/
def update_first_step (step_id : StepId) (f : WorkflowStep → WorkflowStep) :
    List WorkflowStep → List WorkflowStep
  | [] => []
  | s :: rest =>
    if s.id = step_id then f s :: rest else s :: update_first_step step_id f rest

/-- Workflow::start_step. -/
def Workflow.start_step (wf : Workflow) (step_id : StepId) (executor : NodeId)
    (now : Timestamp) : Workflow :=
  let wf1 :=
    { wf with steps :=
        (update_first_step step_id
          (fun s => { s with status := StepStatus.running, assigned_to := some executor })
          wf.steps) }
  if wf1.status = WorkflowStatus.pending then
    { wf1 with status := WorkflowStatus.running, started := some now }
  else wf1

def step_is_terminal (s : WorkflowStep) : Bool :=
  s.status == StepStatus.completed || s.status == StepStatus.failed ||
    s.status == StepStatus.skipped

/-- Workflow::check_completion. -/
def Workflow.check_completion (wf : Workflow) (now : Timestamp) : Workflow :=
  if wf.steps.all step_is_terminal then
    { wf with
      status :=
        if wf.steps.any (·.status == StepStatus.failed) then WorkflowStatus.failed
        else WorkflowStatus.completed,
      completed := some now }
  else wf

/-- Workflow::complete_step. -/
def Workflow.complete_step (wf : Workflow) (step_id : StepId) (result : StepResult)
    (now : Timestamp) : Workflow :=
  let wf1 :=
    { wf with
      steps :=
        (update_first_step step_id
          (fun s =>
            { s with
              status :=
                if result.success then StepStatus.completed else StepStatus.failed,
              result := some result })
          wf.steps),
      context := wf.context.add_result result }
  wf1.check_completion now

/-! ## Supporting concrete instances and specification-side definitions -/

/-- A concrete float oracle: any record of rational stand-ins for exp, ln and
powf; used to instantiate theorems at concrete inputs. -/
def expQ (x : ℚ) : ℚ := if 0 ≤ x then 1 + x else 1 / (1 - x)

def floatFnsModel : FloatFns :=
  { exp := expQ, log := fun x => x, powf := fun x _ => x }

/-- Concrete probationary node one interaction away from the probation review. -/
def nodeW4 : Node := { Node.new 3 with probation_count := 49 }

/-- A trivial task used by concrete workflow instances. -/
def taskW : Task :=
  { id := 0, required_caps := [], constraints := TaskConstraints.default, origin := 0,
    created := 0 }

def resultW : StepResult :=
  { step_id := 0, success := true, output := [], quality := 1, executor := 4,
    duration_ms := 10 }

def wfW6 : Workflow := (Workflow.new 0 WorkflowType.single 0).add_step
  (WorkflowStep.build 0 taskW [])

/-- A one-step workflow already started, hence in Running status. -/
def wfRunning : Workflow :=
  ((Workflow.new 0 WorkflowType.single 0).add_step
    (WorkflowStep.build 0 taskW [])).start_step 0 1 1

/-- The invariant claimed for workflows: a Running step has all its
dependencies Completed, and a Completed step carries a successful result. -/
def step_invariant (wf : Workflow) : Prop :=
  ∀ s ∈ wf.steps,
    (s.status = StepStatus.running →
      ∀ d ∈ s.depends_on,
        ∃ t ∈ wf.steps, t.id = d ∧ t.status = StepStatus.completed) ∧
    (s.status = StepStatus.completed → ∃ r, s.result = some r ∧ r.success = true)

/-- States reachable from a fresh workflow through the public operations,
with steps built by the WorkflowStep constructor. -/
inductive Reach : Workflow → Prop where
  | new : ∀ id wt now, Reach (Workflow.new id wt now)
  | add : ∀ wf sid task deps, Reach wf →
      Reach (wf.add_step (WorkflowStep.build sid task deps))
  | start : ∀ wf sid exec now, Reach wf → Reach (wf.start_step sid exec now)
  | complete : ∀ wf sid res now, Reach wf → Reach (wf.complete_step sid res now)

/-- Guarded reachability: start_step is only invoked on a step currently in
ready_steps, and complete_step only on a step currently Running. -/
inductive GReach : Workflow → Prop where
  | new : ∀ id wt now, GReach (Workflow.new id wt now)
  | add : ∀ wf sid task deps, GReach wf →
      GReach (wf.add_step (WorkflowStep.build sid task deps))
  | start : ∀ wf sid exec now s, GReach wf →
      wf.steps.find? (fun t => t.id == sid) = some s → s ∈ wf.ready_steps →
      GReach (wf.start_step sid exec now)
  | complete : ∀ wf sid res now s, GReach wf →
      wf.steps.find? (fun t => t.id == sid) = some s →
      s.status = StepStatus.running →
      GReach (wf.complete_step sid res now)

/-- A two-step chain whose dependent step was started directly. -/
def wfBad : Workflow :=
  (((Workflow.new 0 WorkflowType.dag 0).add_step
      (WorkflowStep.build 0 taskW [])).add_step
    (WorkflowStep.build 1 taskW [0])).start_step 1 5 1

/-- A one-step workflow started through the guarded protocol. -/
def wfGood : Workflow :=
  ((Workflow.new 0 WorkflowType.single 0).add_step
    (WorkflowStep.build 0 taskW [])).start_step 0 5 1

/-- The candidate filter exactly as the claim words it: the candidate has the
requested capability available with capability load below 0.95, is not the
requesting node, is not excluded, and meets min_trust and min_quality when
set.  Written from the claim text (refinement comparison against
route_filter); it omits the node-level activity and load checks that
can_accept_capability_work performs. -/
def claimed_route_filter (from_node : Node) (task : Task) (required_cap : CapabilityId)
    (node : Node) : Bool :=
  node.has_capability required_cap &&
    (((node.capabilities.find? (·.1 == required_cap)).map
      (·.2.can_accept_work)).getD false) &&
    task.constraints.is_acceptable node required_cap && decide (node.id ≠ from_node.id)

def fromEx5 : Node := Node.new 0

def candEx5 : Node :=
  { Node.new 1 with
    status := NodeStatus.expelled
    capabilities := [(7, CapabilityState.new 0)] }

def taskEx5 : Task :=
  { id := 0, required_caps := [7], constraints := TaskConstraints.default, origin := 0,
    created := 0 }

def candW5 : Node :=
  { Node.new 1 with capabilities := [(7, CapabilityState.new 0)] }

/-! ## Basic facts about the clamping constructors -/

lemma Score.new_nonneg (v : ℚ) : 0 ≤ Score.new v :=
  le_min (le_max_right v 0) zero_le_one

lemma Score.new_le_one (v : ℚ) : Score.new v ≤ 1 :=
  min_le_right _ _

lemma Score.new_le_of (v y : ℚ) (h : v ≤ y) (hy : 0 ≤ y) : Score.new v ≤ y :=
  min_le_of_left_le (max_le h hy)

lemma Score.new_eq (v : ℚ) (h0 : 0 ≤ v) (h1 : v ≤ 1) : Score.new v = v := by
  unfold Score.new clampQ
  rw [max_eq_left h0, min_eq_left h1]

lemma SignedScore.new_eq_signed (v : ℚ) (h0 : -1 ≤ v) (h1 : v ≤ 1) : SignedScore.new v = v := by
  unfold SignedScore.new clampQ
  rw [max_eq_left h0, min_eq_left h1]

lemma SignedScore.new_pos (v : ℚ) (h : 0 < v) : 0 < SignedScore.new v :=
  lt_min (lt_max_iff.mpr (Or.inl h)) one_pos

lemma SignedScore.new_neg (v : ℚ) (h : v < 0) : SignedScore.new v < 0 :=
  lt_of_le_of_lt (min_le_left _ _) (max_lt h (by norm_num))

/-! ## C3: Bayesian update monotonicity -/

lemma threat_belief_foldl_level (updates : List (ℚ × Option Hash × Timestamp)) :
    ∀ tb : ThreatBelief, 0 ≤ tb.level → tb.level ≤ 1 →
      (∀ u ∈ updates, 0 ≤ u.1 ∧ u.1 ≤ 1) →
      tb.level ≤
        (updates.foldl (fun t u => t.update u.1 u.2.1 u.2.2) tb).level ∧
      (updates.foldl (fun t u => t.update u.1 u.2.1 u.2.2) tb).level ≤ 1 ∧
      0 ≤ (updates.foldl (fun t u => t.update u.1 u.2.1 u.2.2) tb).level := by
  induction updates with
  | nil => intro tb h0 h1 _; exact ⟨le_refl _, h1, h0⟩
  | cons u rest ih =>
    intro tb h0 h1 hu
    obtain ⟨hw0, hw1⟩ := hu u (List.mem_cons_self u rest)
    have hrest : ∀ v ∈ rest, 0 ≤ v.1 ∧ v.1 ≤ 1 := fun v hv => hu v (List.mem_cons_of_mem u hv)
    have hstep : (tb.update u.1 u.2.1 u.2.2).level = tb.level + u.1 * (1 - tb.level) := by
      simp only [ThreatBelief.update]
      exact Score.new_eq _ (by nlinarith) (by nlinarith)
    have h0' : 0 ≤ (tb.update u.1 u.2.1 u.2.2).level := by rw [hstep]; nlinarith
    have h1' : (tb.update u.1 u.2.1 u.2.2).level ≤ 1 := by rw [hstep]; nlinarith
    have hmono : tb.level ≤ (tb.update u.1 u.2.1 u.2.2).level := by rw [hstep]; nlinarith
    obtain ⟨ha, hb, hc⟩ := ih (tb.update u.1 u.2.1 u.2.2) h0' h1' hrest
    exact ⟨le_trans hmono ha, hb, hc⟩

/-- C3: for belief b and weight w in the unit interval, bayesian_update(b,w)
equals b + w(1-b), is at least b, stays in the unit interval, equals b exactly
when b = 1 or w = 0, and a ThreatBelief level never decreases under any
sequence of such updates. -/
theorem bayesian_update_monotone (b w : ℚ) (hb0 : 0 ≤ b) (hb1 : b ≤ 1)
    (hw0 : 0 ≤ w) (hw1 : w ≤ 1) :
    bayesian_update b w = b + w * (1 - b) ∧
    b ≤ bayesian_update b w ∧
    0 ≤ bayesian_update b w ∧ bayesian_update b w ≤ 1 ∧
    (bayesian_update b w = b ↔ b = 1 ∨ w = 0) ∧
    ∀ (tb : ThreatBelief) (updates : List (ℚ × Option Hash × Timestamp)),
      tb.level = b → (∀ u ∈ updates, 0 ≤ u.1 ∧ u.1 ≤ 1) →
      tb.level ≤ (updates.foldl (fun t u => t.update u.1 u.2.1 u.2.2) tb).level := by
  have heq : bayesian_update b w = b + w * (1 - b) := by
    unfold bayesian_update
    exact Score.new_eq _ (by nlinarith) (by nlinarith)
  refine ⟨heq, ?_, ?_, ?_, ?_, ?_⟩
  · rw [heq]; nlinarith
  · rw [heq]; nlinarith
  · rw [heq]; nlinarith
  · rw [heq]
    constructor
    · intro h
      have hz : w * (1 - b) = 0 := by linarith
      rcases mul_eq_zero.mp hz with h1 | h2
      · exact Or.inr h1
      · exact Or.inl (by linarith)
    · rintro (h | h) <;> rw [h] <;> ring
  · intro tb updates hlevel hupd
    exact (threat_belief_foldl_level updates tb (hlevel ▸ hb0) (hlevel ▸ hb1) hupd).1

/-- Witness for C3 at b = 1/2, w = 1/2. -/
theorem bayesian_update_monotone_witness :
    ((0:ℚ) ≤ 1/2 ∧ (1/2:ℚ) ≤ 1) ∧ bayesian_update (1/2) (1/2) = 1/2 + 1/2 * (1 - 1/2) :=
  ⟨⟨by norm_num, by norm_num⟩,
    (bayesian_update_monotone (1/2) (1/2) (by norm_num) (by norm_num) (by norm_num)
      (by norm_num)).1⟩

/-! ## C1: the diversity cap and trust cap bound compute_trust -/

/-- C1: for every node the trust score returned by compute_trust is at most the
diversity score plus 0.3, and at most the node trust_cap (the cap being a
Score, it is nonnegative). -/
theorem compute_trust_capped (F : FloatFns) (n : Node) (hcap0 : 0 ≤ n.trust_cap) :
    compute_trust F n ≤ n.diversity_score + 3/10 ∧ compute_trust F n ≤ n.trust_cap := by
  have hdiv : 0 ≤ n.diversity_score := Score.new_nonneg _
  unfold compute_trust
  constructor
  · apply Score.new_le_of _ _ _ (by linarith)
    calc min (apply_diversity_cap _ n.diversity_score) n.trust_cap ≤
        apply_diversity_cap _ n.diversity_score := min_le_left _ _
      _ ≤ n.diversity_score + 3/10 :=
        Score.new_le_of _ _ (min_le_right _ _) (by linarith)
  · exact Score.new_le_of _ _ (min_le_right _ _) hcap0

/-- Witness for C1 at a freshly created node. -/
theorem compute_trust_capped_witness :
    (0:ℚ) ≤ (Node.new 0).trust_cap ∧
      compute_trust floatFnsModel (Node.new 0) ≤ (Node.new 0).diversity_score + 3/10 := by
  refine ⟨by norm_num [Node.new], ?_⟩
  exact (compute_trust_capped floatFnsModel (Node.new 0) (by norm_num [Node.new])).1

/-! ## C9: diversity counts responder ids, and incoming interactions record
the node itself as responder -/

lemma unique_partners_le (h : InteractionHistory) (count : ℕ) :
    h.unique_partners count ≤ count := by
  unfold InteractionHistory.unique_partners InteractionHistory.recent
  calc ((h.interactions.take count).map (·.responder)).dedup.length ≤
      ((h.interactions.take count).map (·.responder)).length :=
        (List.dedup_sublist _).length_le
    _ = (h.interactions.take count).length := List.length_map _ _
    _ ≤ count := List.length_take_le _ _

/-- C9: diversity_score is exactly the number of distinct responder ids in the
100 most recent history entries divided by 100, and handle_incoming_interaction
stores an entry whose responder is the node itself (not the initiating
partner). -/
theorem diversity_counts_responders (F : FloatFns) (n : Node) (initiator_id : NodeId)
    (volume exchange_in exchange_out quality tone : ℚ) (capability : Option CapabilityId)
    (now : Timestamp) :
    n.diversity_score = (n.history.unique_partners 100 : ℚ) / 100 ∧
    ∃ i : Interaction,
      (n.handle_incoming_interaction F initiator_id volume exchange_in exchange_out
          quality tone capability now).history = n.history.add i ∧
        i.responder = n.id ∧ i.initiator = initiator_id := by
  constructor
  · unfold Node.diversity_score
    apply Score.new_eq
    · positivity
    · rw [div_le_one (by norm_num)]
      exact_mod_cast unique_partners_le n.history 100
  · refine ⟨Interaction.build initiator_id n.id volume quality tone exchange_out
      exchange_in now, ?_, rfl, rfl⟩
    unfold Node.handle_incoming_interaction
    cases capability <;> rfl

/-! ## C2: defense signal propagation -/

lemma forward_eq_some (s : DefenseSignal) (new_sender : NodeId) (w : ℚ) (now : Timestamp)
    (fwd : DefenseSignal) (h : s.forward new_sender w now = some fwd) :
    PROPAGATE_THRESHOLD ≤ s.confidence ∧ s.hops < MAX_HOPS ∧
    MIN_SIGNAL ≤ s.confidence * DECAY_PER_HOP * w ∧
    fwd.confidence = Score.new (s.confidence * DECAY_PER_HOP * w) ∧
    fwd.hops = s.hops + 1 := by
  simp only [DefenseSignal.forward] at h
  split_ifs at h with h1 h2 h3
  simp only [Option.some.injEq] at h
  refine ⟨not_lt.mp h1, not_le.mp h2, not_lt.mp h3, ?_, ?_⟩ <;> rw [← h]

/-- C2: a forwarded copy exists only when the parent confidence reaches the
propagate threshold 0.6 and the hop count is below MAX_HOPS = 5; the copy has
hops = parent.hops + 1 (hence at most 5), confidence equal to
parent confidence times 0.8 times the connection weight (dropped when that
product is below MIN_SIGNAL = 0.1), and strictly smaller confidence than its
parent; freshly created signals start at hops = 0. -/
theorem signal_propagation_sound (node : Node) (signal : DefenseSignal) (now : Timestamp)
    (hconf1 : signal.confidence ≤ 1)
    (hw : ∀ c ∈ node.connections, W_MIN ≤ c.w ∧ c.w ≤ W_MAX) :
    (∀ origin threat tt conf ev t,
      (DefenseSignal.new origin threat tt conf ev t).hops = 0) ∧
    ∀ fwd ∈ queue_propagation node signal now,
      fwd.hops = signal.hops + 1 ∧
      PROPAGATE_THRESHOLD ≤ signal.confidence ∧
      signal.hops < MAX_HOPS ∧
      fwd.hops ≤ MAX_HOPS ∧
      (∃ conn ∈ node.connections,
        fwd.confidence = signal.confidence * DECAY_PER_HOP * conn.w) ∧
      MIN_SIGNAL ≤ fwd.confidence ∧
      fwd.confidence < signal.confidence := by
  refine ⟨fun _ _ _ _ _ _ => rfl, ?_⟩
  intro fwd hmem
  unfold queue_propagation at hmem
  obtain ⟨conn, hconn, hfwd⟩ := List.mem_filterMap.mp hmem
  split_ifs at hfwd
  obtain ⟨hthr, hhops, hmin, hconf, hhop1⟩ :=
    forward_eq_some signal node.id conn.w now fwd hfwd
  obtain ⟨hw0, hw1⟩ := hw conn hconn
  have hthr' : (3/5 : ℚ) ≤ signal.confidence := hthr
  have hprod1 : signal.confidence * DECAY_PER_HOP * conn.w ≤ 1 := by
    unfold DECAY_PER_HOP
    unfold W_MAX at hw1
    unfold W_MIN at hw0
    nlinarith
  have hprod0 : 0 ≤ signal.confidence * DECAY_PER_HOP * conn.w := by
    have : (1/10 : ℚ) ≤ signal.confidence * DECAY_PER_HOP * conn.w := hmin
    linarith
  have hceq : fwd.confidence = signal.confidence * DECAY_PER_HOP * conn.w := by
    rw [hconf]; exact Score.new_eq _ hprod0 hprod1
  refine ⟨hhop1, hthr, hhops, ?_, ⟨conn, hconn, hceq⟩, ?_, ?_⟩
  · rw [hhop1]; exact Nat.succ_le_of_lt hhops
  · rw [hceq]; exact hmin
  · rw [hceq]
    unfold DECAY_PER_HOP
    unfold W_MAX at hw1
    unfold W_MIN at hw0
    nlinarith

/-- Witness for C2: a node with one fresh connection forwards a confidence-0.8
signal from a distinct sender. -/
theorem signal_propagation_sound_witness :
    ((DefenseSignal.new 7 9 ThreatType.strategic (4/5) 3 0).confidence ≤ 1 ∧
      (∀ c ∈ ({ Node.new 1 with connections := [Connection.new 2 0] } : Node).connections,
        W_MIN ≤ c.w ∧ c.w ≤ W_MAX)) ∧
    ∀ fwd ∈ queue_propagation { Node.new 1 with connections := [Connection.new 2 0] }
        (DefenseSignal.new 7 9 ThreatType.strategic (4/5) 3 0) 5,
      fwd.hops = (DefenseSignal.new 7 9 ThreatType.strategic (4/5) 3 0).hops + 1 ∧
      PROPAGATE_THRESHOLD ≤ (DefenseSignal.new 7 9 ThreatType.strategic (4/5) 3 0).confidence ∧
      (DefenseSignal.new 7 9 ThreatType.strategic (4/5) 3 0).hops < MAX_HOPS ∧
      fwd.hops ≤ MAX_HOPS ∧
      (∃ conn ∈ ({ Node.new 1 with connections := [Connection.new 2 0] } : Node).connections,
        fwd.confidence =
          (DefenseSignal.new 7 9 ThreatType.strategic (4/5) 3 0).confidence *
            DECAY_PER_HOP * conn.w) ∧
      MIN_SIGNAL ≤ fwd.confidence ∧
      fwd.confidence < (DefenseSignal.new 7 9 ThreatType.strategic (4/5) 3 0).confidence :=
  ⟨⟨by norm_num [DefenseSignal.new],
      by
        intro c hc
        simp only [List.mem_singleton] at hc
        subst hc
        norm_num [Connection.new, W_INIT, W_MIN, W_MAX]⟩,
    (signal_propagation_sound { Node.new 1 with connections := [Connection.new 2 0] }
      (DefenseSignal.new 7 9 ThreatType.strategic (4/5) 3 0) 5
      (by norm_num [DefenseSignal.new])
      (by
        intro c hc
        simp only [List.mem_singleton] at hc
        subst hc
        norm_num [Connection.new, W_INIT, W_MIN, W_MAX])).2⟩

/-! ## C8: sigmoid sign law and the reinforcement sign contract -/

lemma safe_sigmoid_eval (F : FloatFns) (r beta : ℚ) :
    safe_reciprocity_sigmoid F r beta =
      if 700 < -beta * r then -1
      else if -beta * r < -700 then 1
      else SignedScore.new (2 / (1 + F.exp (-beta * r)) - 1) := rfl

lemma expQ_pos (x : ℚ) : 0 < expQ x := by
  unfold expQ
  split_ifs with h
  · linarith
  · have : (0:ℚ) < 1 - x := by linarith
    positivity

lemma expQ_zero : expQ 0 = 1 := by norm_num [expQ]

lemma expQ_strictMono : StrictMono expQ := by
  intro a b hab
  unfold expQ
  split_ifs with ha hb hb
  · linarith
  · linarith
  · have h1 : (0:ℚ) < 1 - a := by linarith
    have h2 : 1 / (1 - a) < 1 := by rw [div_lt_one h1]; linarith
    linarith
  · have hb1 : (0:ℚ) < 1 - b := by linarith
    have hlt : 1 - b < 1 - a := by linarith
    exact one_div_lt_one_div_of_lt hb1 hlt

/-- C8 counterexample: the claim asserts the reinforcement term is strictly
positive whenever r > 0, but at interaction volume 0 the flow factor
powf(0, 0.5) is 0 (as for f64), so the reinforcement is 0 for a connection
with r = 1. -/
theorem reinforcement_zero_volume_counterexample :
    (0:ℚ) < ({ Connection.new 1 0 with r := 1 } : Connection).r ∧
    Connection.compute_reinforcement floatFnsModel
      { Connection.new 1 0 with r := 1 } 0 = 0 := by
  constructor
  · norm_num
  · unfold Connection.compute_reinforcement
    norm_num [floatFnsModel]

/-- C8 amended: the reciprocity sigmoid vanishes at 0, has the sign of its
argument, and saturates to 1 for r above 350 and to -1 for r below -350
(the 700-overflow gates at beta = 2); the reinforcement term of a connection
is 0 when r = 0, and for nonzero interaction volume it is strictly positive
when r > 0 and strictly negative when r < 0 (at volume 0 it is always 0). -/
theorem reinforcement_sign_contract (F : FloatFns)
    (hpos : ∀ x, 0 < F.exp x) (hzero : F.exp 0 = 1) (hmono : StrictMono F.exp)
    (hpow_zero : ∀ y, F.powf 0 y = 0)
    (hpow_pos : ∀ x y, 0 < x → 0 < F.powf x y) :
    reciprocity_sigmoid F 0 = 0 ∧
    (∀ r : ℚ, 0 < r → 0 < reciprocity_sigmoid F r) ∧
    (∀ r : ℚ, r < 0 → reciprocity_sigmoid F r < 0) ∧
    (∀ r : ℚ, 350 < r → reciprocity_sigmoid F r = 1) ∧
    (∀ r : ℚ, r < -350 → reciprocity_sigmoid F r = -1) ∧
    ∀ (c : Connection) (volume : ℚ), 0 ≤ c.q → -1 ≤ c.tau →
      (c.r = 0 → c.compute_reinforcement F volume = 0) ∧
      (volume ≠ 0 → 0 < c.r → 0 < c.compute_reinforcement F volume) ∧
      (volume ≠ 0 → c.r < 0 → c.compute_reinforcement F volume < 0) := by
  have hsig_zero : reciprocity_sigmoid F 0 = 0 := by
    unfold reciprocity_sigmoid
    rw [safe_sigmoid_eval]
    norm_num [hzero]
    unfold SignedScore.new clampQ
    norm_num
  have hsig_pos : ∀ r : ℚ, 0 < r → 0 < reciprocity_sigmoid F r := by
    intro r hr
    unfold reciprocity_sigmoid BETA
    rw [safe_sigmoid_eval]
    split_ifs with h1 h2
    · linarith
    · norm_num
    · apply SignedScore.new_pos
      have hlt : F.exp (-2 * r) < 1 := by
        rw [← hzero]
        exact hmono (by linarith)
      have hgt : 0 < F.exp (-2 * r) := hpos _
      have hden : 0 < 1 + F.exp (-2 * r) := by linarith
      rw [sub_pos, lt_div_iff₀ hden]
      linarith
  have hsig_neg : ∀ r : ℚ, r < 0 → reciprocity_sigmoid F r < 0 := by
    intro r hr
    unfold reciprocity_sigmoid BETA
    rw [safe_sigmoid_eval]
    split_ifs with h1 h2
    · norm_num
    · linarith
    · apply SignedScore.new_neg
      have hlt : 1 < F.exp (-2 * r) := by
        rw [← hzero]
        exact hmono (by linarith)
      have hden : 0 < 1 + F.exp (-2 * r) := by linarith
      rw [sub_neg, div_lt_iff₀ hden]
      linarith
  have hsig_sat_pos : ∀ r : ℚ, 350 < r → reciprocity_sigmoid F r = 1 := by
    intro r hr
    unfold reciprocity_sigmoid BETA
    rw [safe_sigmoid_eval, if_neg (by linarith), if_pos (by linarith)]
  have hsig_sat_neg : ∀ r : ℚ, r < -350 → reciprocity_sigmoid F r = -1 := by
    intro r hr
    unfold reciprocity_sigmoid BETA
    rw [safe_sigmoid_eval, if_pos (by linarith)]
  refine ⟨hsig_zero, hsig_pos, hsig_neg, hsig_sat_pos, hsig_sat_neg, ?_⟩
  intro c volume hq htau
  have hpow_nonneg0 : 0 ≤ F.powf |volume| MU := by
    rcases eq_or_lt_of_le (abs_nonneg volume) with h | h
    · rw [← h, hpow_zero]
    · exact (hpow_pos _ _ h).le
  have hpsi : 0 < quality_multiplier c.q := by unfold quality_multiplier; linarith
  have hphi : 0 < tone_multiplier c.tau := by unfold tone_multiplier; linarith
  refine ⟨?_, ?_, ?_⟩
  · intro hr
    unfold Connection.compute_reinforcement
    rw [hr, hsig_zero]
    ring
  · intro hv hr
    have hflow : 0 < F.powf |volume| MU := hpow_pos _ _ (abs_pos.mpr hv)
    have hsig : 0 < reciprocity_sigmoid F c.r := hsig_pos _ hr
    unfold Connection.compute_reinforcement GAMMA
    positivity
  · intro hv hr
    have hflow : 0 < F.powf |volume| MU := hpow_pos _ _ (abs_pos.mpr hv)
    have hsig : reciprocity_sigmoid F c.r < 0 := hsig_neg _ hr
    unfold Connection.compute_reinforcement
    have hrw : GAMMA * F.powf |volume| MU * reciprocity_sigmoid F c.r *
        quality_multiplier c.q * tone_multiplier c.tau =
        (GAMMA * F.powf |volume| MU * quality_multiplier c.q * tone_multiplier c.tau) *
          reciprocity_sigmoid F c.r := by ring
    rw [hrw]
    apply mul_neg_of_pos_of_neg _ hsig
    unfold GAMMA
    positivity

/-- Witness for C8 amended: the concrete float oracle satisfies the analytic
hypotheses, and a connection with r = 1 and volume 4 gets positive
reinforcement. -/
theorem reinforcement_sign_contract_witness :
    (0:ℚ) ≤ ({ Connection.new 1 0 with r := 1 } : Connection).q ∧
    0 < Connection.compute_reinforcement floatFnsModel
      { Connection.new 1 0 with r := 1 } 4 :=
  ⟨by norm_num [Connection.new],
    ((reinforcement_sign_contract floatFnsModel expQ_pos expQ_zero expQ_strictMono
        (fun _ => rfl) (fun x _ hx => hx)).2.2.2.2.2
      { Connection.new 1 0 with r := 1 } 4 (by norm_num [Connection.new])
      (by norm_num [Connection.new])).2.1 (by norm_num) (by norm_num)⟩

/-! ## C4: probation accounting on outgoing interactions -/

lemma handle_outgoing_probationary (F : FloatFns) (n : Node) (partner_id : NodeId)
    (volume exchange_in exchange_out quality tone : ℚ) (capability : Option CapabilityId)
    (now : Timestamp) (hstatus : n.status = NodeStatus.probationary) :
    ∃ conns,
      n.handle_outgoing_interaction F partner_id volume exchange_in exchange_out quality
          tone capability now =
        Node.check_probation_status
          { n with
            connections := conns
            history := n.history.add
              (Interaction.build n.id partner_id volume quality tone exchange_in
                exchange_out now)
            probation_count := n.probation_count + 1 } := by
  cases capability with
  | none =>
    refine ⟨n.update_connection partner_id now
      (fun c => Connection.process_interaction F c volume exchange_in exchange_out quality
        tone (n.get_threat_level partner_id) now), ?_⟩
    simp [Node.handle_outgoing_interaction, hstatus]
  | some cap_id =>
    refine ⟨Node.update_connection
      { n with connections := (n.update_connection partner_id now
          (fun c => Connection.process_interaction F c volume exchange_in exchange_out
            quality tone (n.get_threat_level partner_id) now)) }
      partner_id now (fun c => c.update_capability_quality cap_id quality), ?_⟩
    simp [Node.handle_outgoing_interaction, hstatus]

/-- C4: when a Probationary node records an outgoing interaction, its probation
count increments; below 50 interactions nothing else changes, at 50 the mean
quality of the last 50 history entries decides the outcome: at least 0.6
promotes to Member with trust min(1.5 trust, 0.8) and the counter kept, below
0.6 keeps the node Probationary with trust 0.8 trust and the counter reset
to 0. -/
theorem probation_transition (F : FloatFns) (n : Node) (partner_id : NodeId)
    (volume exchange_in exchange_out quality tone : ℚ) (capability : Option CapabilityId)
    (now : Timestamp) (hstatus : n.status = NodeStatus.probationary)
    (ht0 : 0 ≤ n.trust) (ht1 : n.trust ≤ 1) :
    (n.handle_outgoing_interaction F partner_id volume exchange_in exchange_out
        quality tone capability now).history =
      n.history.add (Interaction.build n.id partner_id volume quality tone exchange_in
        exchange_out now) ∧
    (n.probation_count + 1 < PROBATION_COUNT →
      (n.handle_outgoing_interaction F partner_id volume exchange_in exchange_out
          quality tone capability now).status = NodeStatus.probationary ∧
      (n.handle_outgoing_interaction F partner_id volume exchange_in exchange_out
          quality tone capability now).probation_count = n.probation_count + 1 ∧
      (n.handle_outgoing_interaction F partner_id volume exchange_in exchange_out
          quality tone capability now).trust = n.trust) ∧
    (PROBATION_COUNT ≤ n.probation_count + 1 →
      PROBATION_THRESHOLD ≤
        (n.history.add (Interaction.build n.id partner_id volume quality tone exchange_in
          exchange_out now)).mean_quality PROBATION_COUNT →
      (n.handle_outgoing_interaction F partner_id volume exchange_in exchange_out
          quality tone capability now).status = NodeStatus.member ∧
      (n.handle_outgoing_interaction F partner_id volume exchange_in exchange_out
          quality tone capability now).probation_count = n.probation_count + 1 ∧
      (n.handle_outgoing_interaction F partner_id volume exchange_in exchange_out
          quality tone capability now).trust = min (n.trust * (3/2)) (4/5)) ∧
    (PROBATION_COUNT ≤ n.probation_count + 1 →
      (n.history.add (Interaction.build n.id partner_id volume quality tone exchange_in
        exchange_out now)).mean_quality PROBATION_COUNT < PROBATION_THRESHOLD →
      (n.handle_outgoing_interaction F partner_id volume exchange_in exchange_out
          quality tone capability now).status = NodeStatus.probationary ∧
      (n.handle_outgoing_interaction F partner_id volume exchange_in exchange_out
          quality tone capability now).probation_count = 0 ∧
      (n.handle_outgoing_interaction F partner_id volume exchange_in exchange_out
          quality tone capability now).trust = n.trust * (4/5)) := by
  obtain ⟨conns, hrw⟩ := handle_outgoing_probationary F n partner_id volume exchange_in
    exchange_out quality tone capability now hstatus
  rw [hrw]
  simp only [Node.check_probation_status]
  split_ifs with hne hcnt hmean
  · exact absurd hstatus hne
  · -- counter reached and mean at least the threshold: promotion to Member
    refine ⟨rfl, ?_, ?_, ?_⟩
    · intro hlt; exact absurd hcnt (not_le.mpr hlt)
    · intro _ _
      refine ⟨rfl, rfl, ?_⟩
      exact Score.new_eq _ (le_min (by nlinarith) (by norm_num))
        (le_trans (min_le_right _ _) (by norm_num))
    · intro _ hlt; exact absurd hmean (not_le.mpr hlt)
  · -- counter reached and mean below the threshold: trust penalty and reset
    refine ⟨rfl, ?_, ?_, ?_⟩
    · intro hlt; exact absurd hcnt (not_le.mpr hlt)
    · intro _ hge; exact absurd hge hmean
    · intro _ _
      exact ⟨hstatus, rfl, Score.new_eq _ (by nlinarith) (by nlinarith)⟩
  · -- counter not yet reached: only the increment happens
    refine ⟨rfl, ?_, ?_, ?_⟩
    · exact fun _ => ⟨hstatus, rfl, rfl⟩
    · intro hge; exact absurd hge hcnt
    · intro hge; exact absurd hge hcnt

/-- Witness for C4: the 50th good-quality interaction promotes the node. -/
theorem probation_transition_witness :
    (nodeW4.status = NodeStatus.probationary ∧
      PROBATION_COUNT ≤ nodeW4.probation_count + 1) ∧
    (nodeW4.handle_outgoing_interaction floatFnsModel 8 1 1 1 (4/5) 0 none 7).status =
      NodeStatus.member ∧
    (nodeW4.handle_outgoing_interaction floatFnsModel 8 1 1 1 (4/5) 0 none 7).trust =
      min (nodeW4.trust * (3/2)) (4/5) :=
  have h := (probation_transition floatFnsModel nodeW4 8 1 1 1 (4/5) 0 none 7 rfl
    (by norm_num [nodeW4, Node.new, SWIFT_TRUST_BASE])
    (by norm_num [nodeW4, Node.new, SWIFT_TRUST_BASE])).2.2.1
    (by norm_num [nodeW4, Node.new, PROBATION_COUNT])
    (by norm_num [nodeW4, Node.new, InteractionHistory.empty, InteractionHistory.add,
      InteractionHistory.mean_quality, InteractionHistory.recent, Interaction.build,
      Score.new, clampQ, PROBATION_THRESHOLD, PROBATION_COUNT])
  ⟨⟨rfl, by norm_num [nodeW4, Node.new, PROBATION_COUNT]⟩, h.1, h.2.2⟩

/-! ## C6 and C10: complete_step and start_step behaviour -/

lemma check_completion_fields (wf : Workflow) (now : Timestamp) :
    (wf.check_completion now).steps = wf.steps ∧
    (wf.check_completion now).context = wf.context ∧
    (wf.steps.all step_is_terminal →
      (wf.check_completion now).status =
        (if wf.steps.any (·.status == StepStatus.failed) then WorkflowStatus.failed
         else WorkflowStatus.completed) ∧
      (wf.check_completion now).completed = some now) := by
  by_cases h1 : wf.steps.all step_is_terminal
  · unfold Workflow.check_completion
    rw [if_pos h1]
    exact ⟨rfl, rfl, fun _ => ⟨rfl, rfl⟩⟩
  · unfold Workflow.check_completion
    rw [if_neg h1]
    exact ⟨rfl, rfl, fun h => absurd h h1⟩

lemma update_first_step_split (step_id : StepId) (f : WorkflowStep → WorkflowStep)
    (pre post : List WorkflowStep) (st : WorkflowStep)
    (hpre : ∀ s ∈ pre, s.id ≠ step_id) (hid : st.id = step_id) :
    update_first_step step_id f (pre ++ st :: post) = pre ++ f st :: post := by
  induction pre with
  | nil => simp [update_first_step, hid]
  | cons a pre ih =>
    have ha : a.id ≠ step_id := hpre a (List.mem_cons_self a pre)
    simp only [List.cons_append, update_first_step, if_neg ha, List.cons.injEq, true_and]
    exact ih (fun s hs => hpre s (List.mem_cons_of_mem a hs))

lemma update_first_step_not_found (step_id : StepId) (f : WorkflowStep → WorkflowStep)
    (l : List WorkflowStep) (h : ∀ s ∈ l, s.id ≠ step_id) :
    update_first_step step_id f l = l := by
  induction l with
  | nil => rfl
  | cons a l ih =>
    have ha : a.id ≠ step_id := h a (List.mem_cons_self a l)
    simp only [update_first_step, if_neg ha, List.cons.injEq, true_and]
    exact ih (fun s hs => h s (List.mem_cons_of_mem a hs))

/-- C6: complete_step marks the (first) step with the given id Completed when
the result is a success and Failed otherwise, stores the result in the step,
appends the result to the context, appends the executor to the lineage only
when absent, increments step_index, and then, whenever every step is terminal
(Completed, Failed or Skipped), sets the workflow status to Failed if any step
Failed and Completed otherwise, stamping the completed time. -/
theorem complete_step_spec (wf : Workflow) (step_id : StepId) (result : StepResult)
    (now : Timestamp) (pre post : List WorkflowStep) (st : WorkflowStep)
    (hsplit : wf.steps = pre ++ st :: post)
    (hpre : ∀ s ∈ pre, s.id ≠ step_id) (hid : st.id = step_id) :
    (wf.complete_step step_id result now).steps =
      pre ++ { st with
        status := (if result.success then StepStatus.completed else StepStatus.failed)
        result := some result } :: post ∧
    (wf.complete_step step_id result now).context.prior_results =
      wf.context.prior_results ++ [result] ∧
    (wf.complete_step step_id result now).context.lineage =
      (if result.executor ∈ wf.context.lineage then wf.context.lineage
       else wf.context.lineage ++ [result.executor]) ∧
    (wf.complete_step step_id result now).context.step_index =
      wf.context.step_index + 1 ∧
    ((wf.complete_step step_id result now).steps.all step_is_terminal →
      (wf.complete_step step_id result now).status =
        (if (wf.complete_step step_id result now).steps.any
            (·.status == StepStatus.failed) then WorkflowStatus.failed
         else WorkflowStatus.completed) ∧
      (wf.complete_step step_id result now).completed = some now) := by
  have hsteps :
      update_first_step step_id
        (fun s =>
          { s with
            status := if result.success then StepStatus.completed else StepStatus.failed
            result := some result }) wf.steps =
      pre ++ { st with
        status := (if result.success then StepStatus.completed else StepStatus.failed)
        result := some result } :: post := by
    rw [hsplit]
    exact update_first_step_split step_id _ pre post st hpre hid
  have hkey : wf.complete_step step_id result now =
      Workflow.check_completion
        { wf with
          steps := pre ++ { st with
            status := (if result.success then StepStatus.completed else StepStatus.failed)
            result := some result } :: post
          context := wf.context.add_result result } now := by
    simp only [Workflow.complete_step, hsteps]
  rw [hkey]
  obtain ⟨hstp, hctx, hstat⟩ := check_completion_fields _ now
  refine ⟨hstp, ?_, ?_, ?_, ?_⟩
  · rw [hctx]; rfl
  · rw [hctx]; rfl
  · rw [hctx]; rfl
  · intro hterm
    rw [hstp] at hterm
    rw [hstp]
    exact hstat hterm

/-- Witness for C6: completing the only step of a one-step workflow with a
successful result completes the workflow. -/
theorem complete_step_spec_witness :
    (wfW6.steps = [] ++ WorkflowStep.build 0 taskW [] :: [] ∧
      (WorkflowStep.build 0 taskW []).id = 0) ∧
    (wfW6.complete_step 0 resultW 9).context.step_index = wfW6.context.step_index + 1 ∧
    ((wfW6.complete_step 0 resultW 9).steps.all step_is_terminal →
      (wfW6.complete_step 0 resultW 9).status =
        (if (wfW6.complete_step 0 resultW 9).steps.any
            (·.status == StepStatus.failed) then WorkflowStatus.failed
         else WorkflowStatus.completed) ∧
      (wfW6.complete_step 0 resultW 9).completed = some 9) :=
  have h := complete_step_spec wfW6 0 resultW 9 [] [] (WorkflowStep.build 0 taskW [])
    rfl (by intro s hs; exact absurd hs (List.not_mem_nil s)) rfl
  ⟨⟨rfl, rfl⟩, h.2.2.2.1, h.2.2.2.2⟩

/-- C10 counterexample: starting a missing step id on a workflow that is
already Running leaves the workflow entirely unchanged, contradicting the
claim that neither operation is ever a no-op on a missing id. -/
theorem start_step_missing_id_noop_counterexample :
    (∀ s ∈ wfRunning.steps, s.id ≠ 99) ∧ wfRunning.start_step 99 2 2 = wfRunning := by
  constructor
  · intro s hs
    simp only [wfRunning, Workflow.start_step, Workflow.add_step, Workflow.new,
      WorkflowStep.build, taskW, update_first_step] at hs ⊢
    simp at hs
    rw [hs]
    simp
  · rfl

/-- C10 amended: with a step id matching no step, complete_step still appends
the result to the context, updates the lineage, increments step_index, may
flip an all-terminal workflow to Completed or Failed, and never leaves the
workflow unchanged; start_step still moves a Pending workflow to Running with
the started timestamp set, but on a workflow that is not Pending it is a
complete no-op. -/
theorem missing_step_id_effects (wf : Workflow) (step_id : StepId) (result : StepResult)
    (executor : NodeId) (now : Timestamp)
    (hmiss : ∀ s ∈ wf.steps, s.id ≠ step_id) :
    (wf.complete_step step_id result now).steps = wf.steps ∧
    (wf.complete_step step_id result now).context.prior_results =
      wf.context.prior_results ++ [result] ∧
    (wf.complete_step step_id result now).context.lineage =
      (if result.executor ∈ wf.context.lineage then wf.context.lineage
       else wf.context.lineage ++ [result.executor]) ∧
    (wf.complete_step step_id result now).context.step_index =
      wf.context.step_index + 1 ∧
    (wf.steps.all step_is_terminal →
      (wf.complete_step step_id result now).status =
        (if wf.steps.any (·.status == StepStatus.failed) then WorkflowStatus.failed
         else WorkflowStatus.completed) ∧
      (wf.complete_step step_id result now).completed = some now) ∧
    wf.complete_step step_id result now ≠ wf ∧
    (wf.start_step step_id executor now).steps = wf.steps ∧
    (wf.status = WorkflowStatus.pending →
      (wf.start_step step_id executor now).status = WorkflowStatus.running ∧
      (wf.start_step step_id executor now).started = some now) ∧
    (wf.status ≠ WorkflowStatus.pending → wf.start_step step_id executor now = wf) := by
  have hc := update_first_step_not_found step_id
    (fun s =>
      { s with
        status := if result.success then StepStatus.completed else StepStatus.failed
        result := some result }) wf.steps hmiss
  have hs := update_first_step_not_found step_id
    (fun s => { s with status := StepStatus.running, assigned_to := some executor })
    wf.steps hmiss
  have hindex : (wf.complete_step step_id result now).context.step_index =
      wf.context.step_index + 1 := by
    simp only [Workflow.complete_step, Workflow.check_completion, WorkflowContext.add_result]
    split_ifs <;> rfl
  refine ⟨?_, ?_, ?_, ?_, ?_, ?_, ?_, ?_, ?_⟩
  · simp only [Workflow.complete_step, Workflow.check_completion, hc]
    split_ifs <;> rfl
  · simp only [Workflow.complete_step, Workflow.check_completion, WorkflowContext.add_result]
    split_ifs <;> rfl
  · simp only [Workflow.complete_step, Workflow.check_completion, WorkflowContext.add_result]
    split_ifs <;> rfl
  · exact hindex
  · intro hterm
    simp only [Workflow.complete_step, Workflow.check_completion, hc]
    rw [if_pos hterm]
    exact ⟨rfl, rfl⟩
  · intro heq
    have := congrArg (fun w => w.context.step_index) heq
    simp only at this
    rw [hindex] at this
    omega
  · simp only [Workflow.start_step, hs]
    split_ifs <;> rfl
  · intro hpending
    simp only [Workflow.start_step, hs]
    rw [if_pos]
    · exact ⟨rfl, rfl⟩
    · show wf.status = WorkflowStatus.pending
      exact hpending
  · intro hnp
    simp only [Workflow.start_step, hs]
    rw [if_neg]
    show ¬ wf.status = WorkflowStatus.pending
    exact hnp

/-- Witness for C10 amended: a fresh workflow with one step, completed under a
missing id 5. -/
theorem missing_step_id_effects_witness :
    (∀ s ∈ wfW6.steps, s.id ≠ 5) ∧
    (wfW6.complete_step 5 resultW 9).context.step_index = wfW6.context.step_index + 1 ∧
    wfW6.complete_step 5 resultW 9 ≠ wfW6 :=
  have hmiss : ∀ s ∈ wfW6.steps, s.id ≠ 5 := by
    intro s hs
    simp only [wfW6, Workflow.add_step, Workflow.new, WorkflowStep.build, taskW] at hs
    simp at hs
    rw [hs]
    simp
  have h := missing_step_id_effects wfW6 5 resultW 3 9 hmiss
  ⟨hmiss, h.2.2.2.1, h.2.2.2.2.2.1⟩

/-! ## C7: the running-step dependency invariant -/

lemma find_step_split (l : List WorkflowStep) (sid : StepId) (s : WorkflowStep)
    (h : l.find? (fun t => t.id == sid) = some s) :
    ∃ pre post, l = pre ++ s :: post ∧ (∀ u ∈ pre, u.id ≠ sid) ∧ s.id = sid := by
  induction l with
  | nil => simp [List.find?] at h
  | cons a l ih =>
    by_cases ha : a.id = sid
    · rw [List.find?_cons_of_pos _ (by simpa using ha)] at h
      obtain rfl : a = s := by simpa using h
      exact ⟨[], l, rfl, by simp, ha⟩
    · rw [List.find?_cons_of_neg _ (by simpa using ha)] at h
      obtain ⟨pre, post, hsplit, hpre, hsid⟩ := ih h
      refine ⟨a :: pre, post, by rw [hsplit]; rfl, ?_, hsid⟩
      intro u hu
      rcases List.mem_cons.mp hu with rfl | hu
      · exact ha
      · exact hpre u hu

lemma mem_ready_steps (wf : Workflow) (s : WorkflowStep) (h : s ∈ wf.ready_steps) :
    s ∈ wf.steps ∧ s.status = StepStatus.pending ∧
    ∀ d ∈ s.depends_on,
      ∃ t ∈ wf.steps, t.id = d ∧ t.status = StepStatus.completed := by
  unfold Workflow.ready_steps at h
  obtain ⟨hmem, hcond⟩ := List.mem_filter.mp h
  rw [Bool.and_eq_true] at hcond
  obtain ⟨hp, hd⟩ := hcond
  refine ⟨hmem, by simpa using hp, ?_⟩
  intro d hd2
  unfold WorkflowStep.dependencies_satisfied at hd
  rw [List.all_eq_true] at hd
  have hd3 := hd d hd2
  have hd4 : d ∈ (wf.steps.filter (·.status == StepStatus.completed)).map (·.id) := by
    simpa using hd3
  obtain ⟨t, htmem, htid⟩ := List.mem_map.mp hd4
  obtain ⟨htsteps, htstat⟩ := List.mem_filter.mp htmem
  exact ⟨t, htsteps, htid, by simpa using htstat⟩

lemma completed_preserved (pre post : List WorkflowStep) (s s2 t : WorkflowStep)
    (hne : s.status ≠ StepStatus.completed)
    (ht : t ∈ pre ++ s :: post) (htc : t.status = StepStatus.completed) :
    t ∈ pre ++ s2 :: post := by
  rcases List.mem_append.mp ht with h | h
  · exact List.mem_append_left _ h
  · rcases List.mem_cons.mp h with rfl | h
    · exact absurd htc hne
    · exact List.mem_append_right _ (List.mem_cons_of_mem _ h)

lemma start_step_steps (wf : Workflow) (sid : StepId) (exec : NodeId) (now : Timestamp)
    (pre post : List WorkflowStep) (st : WorkflowStep)
    (hsplit : wf.steps = pre ++ st :: post)
    (hpre : ∀ u ∈ pre, u.id ≠ sid) (hsid : st.id = sid) :
    (wf.start_step sid exec now).steps =
      pre ++ { st with status := StepStatus.running, assigned_to := some exec } :: post := by
  simp only [Workflow.start_step]
  split_ifs <;>
    (show update_first_step sid _ wf.steps = _
     rw [hsplit]
     exact update_first_step_split sid _ pre post st hpre hsid)

lemma complete_step_steps (wf : Workflow) (sid : StepId) (res : StepResult)
    (now : Timestamp) (pre post : List WorkflowStep) (st : WorkflowStep)
    (hsplit : wf.steps = pre ++ st :: post)
    (hpre : ∀ u ∈ pre, u.id ≠ sid) (hsid : st.id = sid) :
    (wf.complete_step sid res now).steps =
      pre ++ { st with
        status := (if res.success then StepStatus.completed else StepStatus.failed)
        result := some res } :: post := by
  unfold Workflow.complete_step
  rw [(check_completion_fields _ now).1]
  show update_first_step sid _ wf.steps = _
  rw [hsplit]
  exact update_first_step_split sid _ pre post st hpre hsid

lemma step_invariant_new (id : ℕ) (wt : WorkflowType) (now : Timestamp) :
    step_invariant (Workflow.new id wt now) := by
  intro s hs
  simp [Workflow.new] at hs

lemma step_invariant_add (wf : Workflow) (sid : StepId) (task : Task)
    (deps : List StepId) (h : step_invariant wf) :
    step_invariant (wf.add_step (WorkflowStep.build sid task deps)) := by
  intro s hs
  simp only [Workflow.add_step] at hs ⊢
  rcases List.mem_append.mp hs with hs | hs
  · obtain ⟨h1, h2⟩ := h s hs
    refine ⟨?_, h2⟩
    intro hr d hd
    obtain ⟨t, ht, htid, hts⟩ := h1 hr d hd
    exact ⟨t, List.mem_append_left _ ht, htid, hts⟩
  · rw [List.mem_singleton] at hs
    subst hs
    constructor
    · intro hr; simp [WorkflowStep.build] at hr
    · intro hc; simp [WorkflowStep.build] at hc

lemma step_invariant_start (wf : Workflow) (sid : StepId) (exec : NodeId)
    (now : Timestamp) (s : WorkflowStep)
    (hfind : wf.steps.find? (fun t => t.id == sid) = some s)
    (hready : s ∈ wf.ready_steps) (hinv : step_invariant wf) :
    step_invariant (wf.start_step sid exec now) := by
  obtain ⟨pre, post, hsplit, hpre, hsid⟩ := find_step_split _ _ _ hfind
  obtain ⟨hsmem, hspending, hsdeps⟩ := mem_ready_steps wf s hready
  have hne : s.status ≠ StepStatus.completed := by rw [hspending]; simp
  have hsteps := start_step_steps wf sid exec now pre post s hsplit hpre hsid
  intro s2 hs2
  rw [hsteps] at hs2
  rcases List.mem_append.mp hs2 with hmem | hmem
  case _ =>
    obtain ⟨h1, h2⟩ := hinv s2 (by rw [hsplit]; exact List.mem_append_left _ hmem)
    refine ⟨?_, h2⟩
    intro hr d hd
    obtain ⟨t, ht, htid, hts⟩ := h1 hr d hd
    rw [hsteps]
    exact ⟨t, completed_preserved pre post s _ t hne (hsplit ▸ ht) hts, htid, hts⟩
  rcases List.mem_cons.mp hmem with rfl | hmem
  case _ =>
    constructor
    · intro _ d hd
      obtain ⟨t, ht, htid, hts⟩ := hsdeps d hd
      rw [hsteps]
      exact ⟨t, completed_preserved pre post s _ t hne (hsplit ▸ ht) hts, htid, hts⟩
    · intro hc; simp at hc
  case _ =>
    obtain ⟨h1, h2⟩ := hinv s2
      (by rw [hsplit]; exact List.mem_append_right _ (List.mem_cons_of_mem _ hmem))
    refine ⟨?_, h2⟩
    intro hr d hd
    obtain ⟨t, ht, htid, hts⟩ := h1 hr d hd
    rw [hsteps]
    exact ⟨t, completed_preserved pre post s _ t hne (hsplit ▸ ht) hts, htid, hts⟩

lemma step_invariant_complete (wf : Workflow) (sid : StepId) (res : StepResult)
    (now : Timestamp) (s : WorkflowStep)
    (hfind : wf.steps.find? (fun t => t.id == sid) = some s)
    (hrunning : s.status = StepStatus.running) (hinv : step_invariant wf) :
    step_invariant (wf.complete_step sid res now) := by
  obtain ⟨pre, post, hsplit, hpre, hsid⟩ := find_step_split _ _ _ hfind
  have hne : s.status ≠ StepStatus.completed := by rw [hrunning]; simp
  have hsteps := complete_step_steps wf sid res now pre post s hsplit hpre hsid
  intro s2 hs2
  rw [hsteps] at hs2
  rcases List.mem_append.mp hs2 with hmem | hmem
  case _ =>
    obtain ⟨h1, h2⟩ := hinv s2 (by rw [hsplit]; exact List.mem_append_left _ hmem)
    refine ⟨?_, h2⟩
    intro hr d hd
    obtain ⟨t, ht, htid, hts⟩ := h1 hr d hd
    rw [hsteps]
    exact ⟨t, completed_preserved pre post s _ t hne (hsplit ▸ ht) hts, htid, hts⟩
  rcases List.mem_cons.mp hmem with rfl | hmem
  case _ =>
    constructor
    · intro hr
      by_cases hsucc : res.success = true <;> simp [hsucc] at hr
    · intro _
      by_cases hsucc : res.success = true
      · exact ⟨res, rfl, hsucc⟩
      · exfalso
        have : (if res.success then StepStatus.completed else StepStatus.failed) =
            StepStatus.failed := by simp [hsucc]
        simp_all
  case _ =>
    obtain ⟨h1, h2⟩ := hinv s2
      (by rw [hsplit]; exact List.mem_append_right _ (List.mem_cons_of_mem _ hmem))
    refine ⟨?_, h2⟩
    intro hr d hd
    obtain ⟨t, ht, htid, hts⟩ := h1 hr d hd
    rw [hsteps]
    exact ⟨t, completed_preserved pre post s _ t hne (hsplit ▸ ht) hts, htid, hts⟩

/-- C7 counterexample: start_step does not check dependencies, so starting the
dependent step of a two-step chain directly yields a reachable workflow with a
Running step whose dependency is still Pending. -/
theorem running_step_unmet_deps_counterexample :
    Reach wfBad ∧ ¬ step_invariant wfBad := by
  constructor
  · exact Reach.start _ 1 5 1
      (Reach.add _ 1 taskW [0] (Reach.add _ 0 taskW [] (Reach.new 0 WorkflowType.dag 0)))
  · intro hinv
    have hsteps : wfBad.steps =
        [WorkflowStep.build 0 taskW [],
         { WorkflowStep.build 1 taskW [0] with
            status := StepStatus.running, assigned_to := some 5 }] := rfl
    have hrun := (hinv
      { WorkflowStep.build 1 taskW [0] with
        status := StepStatus.running, assigned_to := some 5 }
      (by rw [hsteps]; exact List.mem_cons_of_mem _ (List.mem_cons_self _ _))).1 rfl 0
      (by simp [WorkflowStep.build])
    obtain ⟨t, htmem, htid, htstat⟩ := hrun
    rw [hsteps] at htmem
    rcases List.mem_cons.mp htmem with rfl | h
    · simp [WorkflowStep.build] at htstat
    · rcases List.mem_cons.mp h with rfl | h
      · simp at htstat
      · simp at h

/-- C7 amended: in every workflow state reachable through the public
operations when start_step is only applied to ids of steps in ready_steps and
complete_step only to ids of Running steps, every Running step has all its
depends_on Completed and every Completed step has a result with
success = true.  (The raw operations enforce no such guard, as the
counterexample shows.) -/
theorem guarded_workflow_invariant (wf : Workflow) (h : GReach wf) :
    step_invariant wf := by
  induction h with
  | new id wt now => exact step_invariant_new id wt now
  | add wf sid task deps _ ih => exact step_invariant_add wf sid task deps ih
  | start wf sid exec now s _ hfind hready ih =>
    exact step_invariant_start wf sid exec now s hfind hready ih
  | complete wf sid res now s _ hfind hrunning ih =>
    exact step_invariant_complete wf sid res now s hfind hrunning ih

/-- Witness for C7 amended at a concrete guarded run. -/
theorem guarded_workflow_invariant_witness : GReach wfGood ∧ step_invariant wfGood :=
  have hg : GReach wfGood :=
    GReach.start _ 0 5 1 (WorkflowStep.build 0 taskW [])
      (GReach.add _ 0 taskW [] (GReach.new 0 WorkflowType.single 0))
      rfl
      (by
        show WorkflowStep.build 0 taskW [] ∈ Workflow.ready_steps _
        simp [Workflow.ready_steps, Workflow.add_step, Workflow.new,
          WorkflowStep.build, WorkflowStep.dependencies_satisfied])
  ⟨hg, guarded_workflow_invariant wfGood hg⟩

/-! ## C5: route_task -/

lemma mem_insert_desc (a x : CandidateScore) (l : List CandidateScore) :
    a ∈ insert_desc x l ↔ a = x ∨ a ∈ l := by
  induction l with
  | nil => simp [insert_desc]
  | cons y ys ih =>
    unfold insert_desc
    split_ifs with h
    · simp
    · rw [List.mem_cons, ih, List.mem_cons]
      tauto

lemma sorted_insert_desc (x : CandidateScore) (l : List CandidateScore)
    (h : l.Sorted (fun u v => v.score ≤ u.score)) :
    (insert_desc x l).Sorted (fun u v => v.score ≤ u.score) := by
  induction l with
  | nil => simp [insert_desc]
  | cons y ys ih =>
    rw [List.sorted_cons] at h
    obtain ⟨hy, hys⟩ := h
    unfold insert_desc
    split_ifs with hc
    · rw [List.sorted_cons]
      refine ⟨?_, by rw [List.sorted_cons]; exact ⟨hy, hys⟩⟩
      intro b hb
      rcases List.mem_cons.mp hb with rfl | hb
      · exact hc
      · exact le_trans (hy b hb) hc
    · rw [List.sorted_cons]
      refine ⟨?_, ih hys⟩
      intro b hb
      rcases (mem_insert_desc b x ys).mp hb with rfl | hb
      · exact le_of_lt (not_le.mp hc)
      · exact hy b hb

lemma sorted_sort_by_score_desc (l : List CandidateScore) :
    (sort_by_score_desc l).Sorted (fun u v => v.score ≤ u.score) := by
  induction l with
  | nil => simp [sort_by_score_desc]
  | cons a l ih => exact sorted_insert_desc a _ ih

lemma mem_sort_by_score_desc (a : CandidateScore) (l : List CandidateScore) :
    a ∈ sort_by_score_desc l ↔ a ∈ l := by
  induction l with
  | nil => simp [sort_by_score_desc]
  | cons b l ih =>
    show a ∈ insert_desc b (sort_by_score_desc l) ↔ _
    rw [mem_insert_desc, ih, List.mem_cons]

lemma sort_by_score_desc_eq_nil (l : List CandidateScore) :
    sort_by_score_desc l = [] ↔ l = [] := by
  constructor
  · intro h
    cases l with
    | nil => rfl
    | cons a l =>
      exfalso
      have ha : a ∈ sort_by_score_desc (a :: l) :=
        (mem_sort_by_score_desc a (a :: l)).mpr (List.mem_cons_self a l)
      rw [h] at ha
      simp at ha
  · intro h; rw [h]; rfl

/-- C5 counterexample: an Expelled candidate whose capability is available with
zero load passes the filter stated by the claim, yet route_task returns
NoCandidates because the code additionally requires the candidate node to be
active with node-level load below 0.95. -/
theorem route_task_claim_counterexample :
    claimed_route_filter fromEx5 taskEx5 7 candEx5 = true ∧
    route_task fromEx5 taskEx5 [candEx5] = RoutingResult.noCandidates := by
  constructor
  · norm_num [claimed_route_filter, Node.has_capability, candEx5, Node.new,
      CapabilityState.new, CapabilityState.can_accept_work,
      TaskConstraints.is_acceptable, taskEx5, TaskConstraints.default, fromEx5]
  · rfl

/-- C5 amended: with a nonempty capability list, route_task returns
NoCandidates exactly when no candidate passes the code filter (which,
beyond the claimed conditions, also requires the candidate node itself to be
active with node-level load below 0.95); otherwise it returns Success with a
passing candidate whose multiplicative routing score is maximal among all
passing candidates, and ConstraintsNotMet is never returned. -/
theorem route_task_spec (from_node : Node) (task : Task) (candidates : List Node)
    (required_cap : CapabilityId) (rest : List CapabilityId)
    (hcaps : task.required_caps = required_cap :: rest) :
    (route_task from_node task candidates = RoutingResult.noCandidates ↔
      ∀ c ∈ candidates, route_filter from_node task required_cap c = false) ∧
    route_task from_node task candidates ≠ RoutingResult.constraintsNotMet ∧
    ∀ top, route_task from_node task candidates = RoutingResult.success top →
      (∃ c ∈ candidates, route_filter from_node task required_cap c = true ∧
        top = compute_routing_score from_node c required_cap task.constraints) ∧
      ∀ c ∈ candidates, route_filter from_node task required_cap c = true →
        (compute_routing_score from_node c required_cap task.constraints).score ≤
          top.score := by
  have hrt : route_task from_node task candidates =
      (match sort_by_score_desc
          ((candidates.filter (route_filter from_node task required_cap)).map
            (fun node =>
              compute_routing_score from_node node required_cap task.constraints)) with
        | [] => RoutingResult.noCandidates
        | top :: _ => RoutingResult.success top) := by
    unfold route_task
    rw [hcaps]
  cases hsort : sort_by_score_desc
      ((candidates.filter (route_filter from_node task required_cap)).map
        (fun node =>
          compute_routing_score from_node node required_cap task.constraints)) with
  | nil =>
    rw [hrt, hsort]
    have hsc := (sort_by_score_desc_eq_nil _).mp hsort
    have hfilter : candidates.filter (route_filter from_node task required_cap) = [] :=
      List.map_eq_nil_iff.mp hsc
    rw [List.filter_eq_nil_iff] at hfilter
    refine ⟨⟨fun _ c hc => ?_, fun _ => rfl⟩, by simp, fun top h => by simp at h⟩
    exact Bool.not_eq_true _ ▸ (Bool.eq_false_iff.mpr (hfilter c hc))
  | cons top t =>
    rw [hrt, hsort]
    have htop_mem : top ∈
        (candidates.filter (route_filter from_node task required_cap)).map
          (fun node =>
            compute_routing_score from_node node required_cap task.constraints) :=
      (mem_sort_by_score_desc _ _).mp (hsort ▸ List.mem_cons_self top t)
    refine ⟨⟨fun h => by simp at h, fun hall => ?_⟩, by simp, ?_⟩
    · exfalso
      have hfil : candidates.filter (route_filter from_node task required_cap) = [] :=
        List.filter_eq_nil_iff.mpr (fun a ha => by rw [hall a ha]; simp)
      rw [hfil] at hsort
      simp [sort_by_score_desc] at hsort
    · intro top2 heq
      obtain rfl : top = top2 := by
        cases heq
        rfl
      constructor
      · obtain ⟨c, hc, hceq⟩ := List.mem_map.mp htop_mem
        obtain ⟨hcmem, hcf⟩ := List.mem_filter.mp hc
        exact ⟨c, hcmem, hcf, hceq.symm⟩
      · intro c hc hcf
        have hscmem : compute_routing_score from_node c required_cap task.constraints ∈
            (candidates.filter (route_filter from_node task required_cap)).map
              (fun node =>
                compute_routing_score from_node node required_cap task.constraints) :=
          List.mem_map_of_mem _ (List.mem_filter.mpr ⟨hc, hcf⟩)
        have hmem2 := (mem_sort_by_score_desc _ _).mpr hscmem
        rw [hsort] at hmem2
        rcases List.mem_cons.mp hmem2 with heq2 | hmem3
        · rw [heq2]
        · have hsorted := sorted_sort_by_score_desc
            ((candidates.filter (route_filter from_node task required_cap)).map
              (fun node =>
                compute_routing_score from_node node required_cap task.constraints))
          rw [hsort, List.sorted_cons] at hsorted
          exact hsorted.1 _ hmem3

/-- Witness for C5 amended at a concrete one-candidate request. -/
theorem route_task_spec_witness :
    taskEx5.required_caps = 7 :: [] ∧
    (route_task fromEx5 taskEx5 [candW5] = RoutingResult.noCandidates ↔
      ∀ c ∈ [candW5], route_filter fromEx5 taskEx5 7 c = false) :=
  ⟨rfl, (route_task_spec fromEx5 taskEx5 [candW5] 7 [] rfl).1⟩

end Symbiont
